import Mathlib

/-!
Shallow embedding of the WiktionnaireParser repository
(`wiktionnaireparser/parser.py` and `wiktionnaireparser/utils.py`).

HTML element trees are modelled by the inductive `Node`; Python dicts
(which preserve insertion order and overwrite in place) are modelled by
association lists with the `insertAssoc` operation; Python code that can
raise an uncaught exception is modelled in the `Except String` monad,
the error string naming the exception class.
-/

set_option maxRecDepth 8000

/-- Python dict lookup `d.get(k)` / `d[k]` on an insertion-ordered dict,
modelled as an association list scanned from the front. -/
def lookupA {α β : Type} [DecidableEq α] : List (α × β) → α → Option β
  | [], _ => none
  | (k', v) :: rest, k => if k' = k then some v else lookupA rest k

/-- Python dict assignment `d[k] = v`: overwrites in place, keeping the
original insertion position of an existing key, else appends. -/
def insertAssoc {α β : Type} [DecidableEq α] (k : α) (v : β) : List (α × β) → List (α × β)
  | [] => [(k, v)]
  | (k', v') :: rest => if k' = k then (k, v) :: rest else (k', v') :: insertAssoc k v rest

/-- Python substring test `pat in s`, over explicit character lists. -/
def containsPat (pat : List Char) : List Char → Bool
  | [] => pat.isEmpty
  | c :: rest => pat.isPrefixOf (c :: rest) || containsPat pat rest

/-- the scanning pass of Python `str.replace` for a nonempty literal
pattern `p :: ps`: left to right, non-overlapping, with the replacement
never rescanned.  The fuel only serves structural recursion;
`pyReplace` supplies the length of the scanned list, which always
suffices since every step consumes at least one character. -/
def pyReplaceF (p : Char) (ps rep : List Char) : Nat → List Char → List Char
  | _, [] => []
  | 0, l => l
  | fuel + 1, c :: rest =>
    if p = c ∧ ps.isPrefixOf rest then rep ++ pyReplaceF p ps rep fuel (rest.drop ps.length)
    else c :: pyReplaceF p ps rep fuel rest

/-- Python `s.replace(pat, rep)` for a nonempty literal pattern (the
sources only replace single-character patterns). -/
def pyReplace (s pat rep : String) : String :=
  match pat.toList with
  | [] => s
  | p :: ps => String.mk (pyReplaceF p ps rep.toList s.toList.length s.toList)

/-- Python `str.startswith`, over characters. -/
def sStartsWith (s pre : String) : Bool :=
  pre.toList.isPrefixOf s.toList

/-- Python `str.endswith`, over characters. -/
def sEndsWith (s suf : String) : Bool :=
  suf.toList.isSuffixOf s.toList

/-- Python `str.strip()`: leading and trailing whitespace removed. -/
def pyStrip (s : String) : String :=
  String.mk (((s.toList.dropWhile Char.isWhitespace).reverse.dropWhile Char.isWhitespace).reverse)

/-- Splitting on whitespace, keeping empty chunks (they are filtered by
the caller); used for CSS class-word matching. -/
def splitWSAux (cur : List Char) : List Char → List (List Char)
  | [] => [cur.reverse]
  | c :: rest =>
    if c.isWhitespace then cur.reverse :: splitWSAux [] rest
    else splitWSAux (c :: cur) rest

/-- Single left-to-right pass of `re.sub(pat, '', s)` for a literal
pattern `p :: ps`: on a match the matched span is consumed and scanning
resumes after it (replaced text is never rescanned), otherwise one
character is emitted and scanning advances by one.  The fuel argument
only serves structural recursion; `goReplace` supplies the length of the
scanned list, which always suffices since every step consumes at least
one character. -/
def goReplaceF (p : Char) (ps : List Char) : Nat → List Char → List Char
  | _, [] => []
  | 0, l => l
  | fuel + 1, c :: rest =>
    if p = c ∧ ps.isPrefixOf rest then goReplaceF p ps fuel (rest.drop ps.length)
    else c :: goReplaceF p ps fuel rest

/-- the scanning pass of `re.sub` for a nonempty literal pattern. -/
def goReplace (p : Char) (ps : List Char) (l : List Char) : List Char :=
  goReplaceF p ps l.length l

/-- the dispatcher of `re.sub` on a literal pattern. -/
def reSubLiteral (pat : List Char) (l : List Char) : List Char :=
  match pat with
  | [] => l
  | p :: ps => goReplace p ps l

/-- the literal text of the first ignore pattern of `etymology_cleaner`
up to its single unescaped dot. -/
def etymPart1 : List Char := "Étymologie manquante ou incomplète".toList

/-- the literal text of the first ignore pattern after its unescaped dot
(the final dot is escaped in the source regex, hence literal). -/
def etymPart2 : List Char := " Si vous la connaissez, vous pouvez l’ajouter en cliquant ici.".toList

/-- Matching of the anchored regex
`^Étymologie manquante ou incomplète. Si vous la connaissez, vous pouvez
l’ajouter en cliquant ici\.$` against a whole string: the unescaped dot
matches any character except a newline. -/
def matchesEtym1 (l : List Char) : Bool :=
  etymPart1.isPrefixOf l &&
    (match l.drop etymPart1.length with
     | [] => false
     | c :: rest2 => c != '\n' && rest2 == etymPart2)

/-- the substitution of the first (anchored) ignore pattern of
`etymology_cleaner`: without `re.MULTILINE` the `$` also matches just
before a single trailing newline. -/
def sub1 (l : List Char) : List Char :=
  if matchesEtym1 l then []
  else if (l.getLast? == some '\n') && matchesEtym1 l.dropLast then ['\n']
  else l

/-- the literal second ignore pattern `\(Siècle à préciser\) ` of
`etymology_cleaner`. -/
def pat2 : List Char := "(Siècle à préciser) ".toList

/-- `utils.etymology_cleaner`: applies `re.sub` for the two ignore
patterns in order (the anchored placeholder sentence, then every
occurrence of the literal `(Siècle à préciser) `). -/
def etymology_cleaner (l : List Char) : List Char :=
  reSubLiteral pat2 (sub1 l)

/-- the concrete input on which one cleaning pass splices the text
around a removed occurrence into a fresh occurrence of the same
pattern. -/
def etymBad : List Char := "(Siècle à(Siècle à préciser)  préciser) ".toList

/-- an HTML element as exposed by lxml: tag name, attribute dictionary,
`text_content()` of its subtree, child elements in document order, and
whether the object is an `HtmlComment`. -/
inductive Node : Type where
  | mk (tag : String) (attrs : List (String × String)) (text : String)
       (children : List Node) (isComment : Bool) : Node

/-- the tag name of an element. -/
def Node.tag : Node → String
  | .mk t _ _ _ _ => t

/-- the attribute dictionary of an element. -/
def Node.attrs : Node → List (String × String)
  | .mk _ a _ _ _ => a

/-- `text_content()` of an element. -/
def Node.text : Node → String
  | .mk _ _ x _ _ => x

/-- `getchildren()` of an element, in document order. -/
def Node.children : Node → List Node
  | .mk _ _ _ c _ => c

/-- whether the object is an `HtmlComment`. -/
def Node.isComment : Node → Bool
  | .mk _ _ _ _ cm => cm

/-- `element.attrib.get(key)`. -/
def attrGet (n : Node) (key : String) : Option String :=
  lookupA n.attrs key

/-- CSS class-selector matching: the `class` attribute, split on
whitespace, contains the requested word. -/
def hasClassWord (c : String) (n : Node) : Bool :=
  match attrGet n "class" with
  | none => false
  | some v => ((splitWSAux [] v.toList).filter (fun w => ¬ w.isEmpty)).contains c.toList

mutual
/-- an element followed by all its descendants in document order
(the `descendant-or-self` axis used by lxml `cssselect`). -/
def descSelf : Node → List Node
  | Node.mk t a x c cm => Node.mk t a x c cm :: descList c

/-- all elements of the given forest in document order. -/
def descList : List Node → List Node
  | [] => []
  | n :: rest => descSelf n ++ descList rest
end

/-- pyquery `find` on the document root: it searches the strict
descendants of the root element. -/
def pqFindAll (doc : Node) : List Node :=
  descList doc.children

/-- pyquery `find('#idv')` on the document root: the strict descendants
whose `id` attribute equals `idv`, in document order. -/
def idSel (doc : Node) (idv : String) : List Node :=
  (pqFindAll doc).filter (fun n => attrGet n "id" = some idv)

/-- pyquery `find(key).text()` for an id selector `key = '#idv'`: the
text of every match, joined (empty string when nothing matches). -/
def queryIdText (doc : Node) (key : String) : String :=
  String.intercalate " " ((idSel doc (key.drop 1)).map Node.text)

mutual
/-- Search, in document order, for the first strict descendant whose
`id` attribute equals `idv`; the result is the sibling suffix starting
at the parent of the match, modelling `find('#idv')[0].getparent()`
followed by `getnext()` walks.  The first list argument is the sibling
suffix starting at the parent of the nodes currently scanned. -/
def findIdSearch (idv : String) : List Node → List Node → Option (List Node)
  | _, [] => none
  | psuf, n :: rest =>
    if attrGet n "id" = some idv then some psuf
    else match findIdChild idv (n :: rest) n with
      | some s => some s
      | none => findIdSearch idv psuf rest

/-- descent of `findIdSearch` into the children of one element. -/
def findIdChild (idv : String) (selfSuf : List Node) : Node → Option (List Node)
  | Node.mk _ _ _ c _ => findIdSearch idv selfSuf c
end

/-- `self._query.find('#idv')[0].getparent()` with the parent's
following siblings: `some (parent :: siblings-after-parent)`, or
`some []` when the match sits directly below the root (its pyquery
parent is the root), or `none` when the id is absent (`[0]` raises
`IndexError`). -/
def anchorParentSuffix (idv : String) (doc : Node) : Option (List Node) :=
  findIdSearch idv [] doc.children

mutual
/-- Search, in document order, for the first strict descendant that is
a link (`a` tag) whose `href` attribute equals `target` (links without
an `href` raise `KeyError`, caught and skipped in the source); the
result is the sibling suffix following the matched link, modelling
`link.getnext()`. -/
def findLinkSearch (target : String) : List Node → Option (List Node)
  | [] => none
  | n :: rest =>
    if n.tag = "a" ∧ attrGet n "href" = some target then some rest
    else match findLinkChild target n with
      | some s => some s
      | none => findLinkSearch target rest

/-- descent of `findLinkSearch` into the children of one element. -/
def findLinkChild (target : String) : Node → Option (List Node)
  | Node.mk _ _ _ c _ => findLinkSearch target c
end

mutual
/-- Search, in document order, for the first strict descendant carrying
the CSS class word `c`; the result is its parent element, modelling
`find('.c')[0].getparent()`. -/
def findClassParentIn (c : String) (parent : Node) : List Node → Option Node
  | [] => none
  | n :: rest =>
    if hasClassWord c n then some parent
    else match findClassParentChild c n with
      | some p => some p
      | none => findClassParentIn c parent rest

/-- descent of `findClassParentIn` into the children of one element. -/
def findClassParentChild (c : String) : Node → Option Node
  | Node.mk t a x ch cm => findClassParentIn c (Node.mk t a x ch cm) ch
end

/-- `element.find(tag)`: the first direct child with the given tag. -/
def firstChildTag (t : String) (n : Node) : Option Node :=
  n.children.find? (fun c => c.tag = t)

/-- the suffix of a sibling list starting at its first element with the
given tag. -/
def suffixFromTag (t : String) : List Node → Option (List Node)
  | [] => none
  | c :: rest => if c.tag = t then some (c :: rest) else suffixFromTag t rest

/-- the suffix of `n.children` starting at the first child with the
given tag: `element.find(tag)` followed by `getnext()` walks over the
following siblings.  `none` when no child has the tag. -/
def childSuffixTag (t : String) (n : Node) : Option (List Node) :=
  suffixFromTag t n.children

/-- `parser.get_notes`: walks the sibling chain appending each node's
text until an `h3` or `h4` heading; the source has no `None` guard in
the `while` condition, so a chain that ends without such a heading
raises `AttributeError` (`None.tag`), modelled by the error result. -/
def getNotesLoop (acc : List String) : List Node → Except String (List String)
  | [] => .error "AttributeError"
  | n :: rest =>
    if n.tag = "h3" ∨ n.tag = "h4" then .ok acc.reverse
    else getNotesLoop (n.text :: acc) rest

/-- `parser.get_notes`, joining the collected texts with newlines. -/
def get_notes (chain : List Node) : Except String String :=
  (getNotesLoop [] chain).map (String.intercalate "\n")

/-- the per-call metadata captured on the parser instance by
`ligne_de_forme`: `self.pronunciation` and `self.gender`. -/
structure LDF : Type where
  pronunciation : List String
  gender : String
deriving DecidableEq

/-- the pronunciation scan of `ligne_de_forme`: from the first `a` child
onward, any sibling whose first `span` child carries class `API`
contributes its text (`suppress(AttributeError)` skips siblings without
a `span` child). -/
def pronWalk : List Node → List String
  | [] => []
  | n :: rest =>
    (match firstChildTag "span" n with
     | some sp => if attrGet sp "class" = some "API" then [n.text] else []
     | none => []) ++ pronWalk rest

/-- the gender scan of `ligne_de_forme`: from the first `span` child
onward, the text of the first sibling whose class is `ligne-de-forme`
(first match wins), else the empty string. -/
def genderWalk : List Node → String
  | [] => ""
  | n :: rest =>
    if attrGet n "class" = some "ligne-de-forme" then n.text else genderWalk rest

/-- `parser.ligne_de_forme`: resets both fields, then runs the two
scans; collected pronunciations have their backslashes stripped. -/
def ligne_de_forme (line : Node) : LDF :=
  let pron := match childSuffixTag "a" line with
    | none => []
    | some suf => pronWalk suf
  let gen := match childSuffixTag "span" line with
    | none => ""
    | some suf => genderWalk suf
  ⟨pron.map (fun x => pyReplace x "\\" ""), gen⟩

/-- the text content up to the first line break:
`text_content().split('\n')[0]`. -/
def firstLineOf (s : String) : String :=
  String.mk (s.toList.takeWhile (fun c => c ≠ '\n'))

/-- one example of a definition: the example text (the `example` key of
the source dict) and, when present and nonempty, its translation. -/
structure ExEntry : Type where
  exampleText : String
  translation : Option String

/-- `parser.get_translation`: the first `dd` child of the first `dl`
child, stripped; `suppress(AttributeError)` turns either missing node
into `None`. -/
def getExTranslation (exampleLine : Node) : Option String :=
  match firstChildTag "dl" exampleLine with
  | none => none
  | some dl =>
    match firstChildTag "dd" dl with
    | none => none
    | some dd => some (pyStrip dd.text)

/-- the example loop of `parser.get_examples`: one entry per sibling
with nonempty first-line text; the counter advances on every sibling.
The `translation` key is present only when the found translation is
nonempty. -/
def getExamplesLoop (count : Nat) : List Node → List (Nat × ExEntry)
  | [] => []
  | e :: rest =>
    let ex := pyStrip (firstLineOf e.text)
    let tr := match getExTranslation e with
      | some t => if t = "" then none else some t
      | none => none
    (if ex = "" then [] else [(count, ⟨ex, tr⟩)]) ++ getExamplesLoop (count + 1) rest

/-- `parser.get_examples`: iterates the `li` children of the first `ul`
child of a definition block; a missing `ul` (or a `ul` with no `li`
child) yields the empty mapping via the caught `AttributeError`. -/
def get_examples (bloc : Node) : List (Nat × ExEntry) :=
  match firstChildTag "ul" bloc with
  | none => []
  | some ul =>
    match childSuffixTag "li" ul with
    | none => []
    | some suf => getExamplesLoop 0 suf

/-- one sub-definition of `parser.get_subdefinitions`: the first-line
text and, for a block with children, the raw block itself carried
opaquely under the `examples` key (the source stores the element, not a
decoded structure). -/
structure SubDefEntry : Type where
  subdefinition : String
  examples : Option Node

/-- `parser.get_subdefinitions`: one entry per child of the nested
ordered list; the `examples` key is present exactly when the block is
truthy as an lxml element, that is, has children. -/
def get_subdefinitions (ol : Node) : List (Nat × SubDefEntry) :=
  ol.children.enum.map (fun p =>
    (p.1, ⟨firstLineOf p.2.text, if p.2.children.isEmpty then none else some p.2⟩))

/-- one definition entry of `parser.get_definitions`: first-line text,
examples (the key is present only when nonempty), and sub-definitions
(present only when the block has an `ol` child that itself has
children, the truthiness test of the source). -/
structure DefEntry : Type where
  definition : String
  examples : List (Nat × ExEntry)
  subdefinitions : Option (List (Nat × SubDefEntry))

/-- the conversion of one `li` block of the ordered list into a
definition entry. -/
def defEntryOf (bloc : Node) : DefEntry :=
  let examples := get_examples bloc
  let subdefs := match firstChildTag "ol" bloc with
    | some olc => if olc.children.isEmpty then none else some (get_subdefinitions olc)
    | none => none
  ⟨firstLineOf bloc.text, examples, subdefs⟩

/-- the sibling walk of `parser.get_definitions`: starting at the
anchor's parent, advance until an `ol` node or the end of the chain;
every `p` or `span` node on the way replaces the per-call metadata via
`ligne_de_forme`.  The walk does NOT stop at `h3`/`h4` headings. -/
def defsWalk (st : LDF) : List Node → Option Node × LDF
  | [] => (none, st)
  | n :: rest =>
    if n.tag = "ol" then (some n, st)
    else defsWalk (if n.tag = "p" ∨ n.tag = "span" then ligne_de_forme n else st) rest

/-- the body of `parser.get_definitions` from the anchor's parent
sibling chain: empty mapping when the walk finds no ordered list,
otherwise one entry per child of the found list. -/
def getDefinitionsFrom (st : LDF) (chain : List Node) : List (Nat × DefEntry) × LDF :=
  match defsWalk st chain with
  | (none, st2) => ([], st2)
  | (some ol, st2) => (ol.children.enum.map (fun p => (p.1, defEntryOf p.2)), st2)

/-- `parser.get_definitions`: normalizes the section identifier to a
`#`-prefixed slug, locates the anchor (a missing anchor raises
`IndexError` on `[0]`), takes its parent and runs the sibling walk. -/
def get_definitions (doc : Node) (st : LDF) (part_of_speech : String) :
    Except String (List (Nat × DefEntry) × LDF) :=
  let pos := if sStartsWith part_of_speech "#" then part_of_speech
             else "#" ++ pyReplace part_of_speech " " "_"
  match anchorParentSuffix (pos.drop 1) doc with
  | none => .error "IndexError"
  | some suffix => .ok (getDefinitionsFrom st suffix)

/-- one entry of `utils.extract_related_words`: the optional collapsible
block description and the collected link texts. -/
structure RWEntry : Type where
  description : String
  words : List String
deriving DecidableEq

/-- the link loop of `utils.extract_related_words`: a link whose `href`
contains `Annexe:` is skipped; a link with no `href` attribute raises
`TypeError` (`'Annexe:' in None`), which the source does not catch. -/
def annexeWords : List Node → Except String (List String)
  | [] => .ok []
  | l :: rest =>
    match attrGet l "href" with
    | none => .error "TypeError"
    | some h =>
      if containsPat "Annexe:".toList h.toList then annexeWords rest
      else do
        let ws ← annexeWords rest
        pure (l.text :: ws)

/-- cssselect `.NavContent` (and `.NavHead`) on an element:
descendant-or-self nodes carrying the class word. -/
def cssClassSel (c : String) (sec : Node) : List Node :=
  (descSelf sec).filter (hasClassWord c)

/-- cssselect `a` on an element: descendant-or-self `a` nodes. -/
def cssTagA (sec : Node) : List Node :=
  (descSelf sec).filter (fun n => n.tag = "a")

/-- cssselect `.NavContent a` on an element: `a` nodes that are strict
descendants of a descendant-or-self node carrying class `NavContent`. -/
def navContentLinks (sec : Node) : List Node :=
  (cssClassSel "NavContent" sec).flatMap
    (fun nv => (descList nv.children).filter (fun n => n.tag = "a"))

/-- the sibling loop of `utils.extract_related_words`: stops at an `h3`
or `h4` heading or at the end of the chain (the source checks
`section is not None` here); comment nodes advance the counter without
producing an entry; a missing `.NavHead` is suppressed into an empty
description. -/
def extractRWLoop (count : Nat) : List Node → Except String (List (Nat × RWEntry))
  | [] => .ok []
  | sec :: rest =>
    if sec.tag = "h3" ∨ sec.tag = "h4" then .ok []
    else if sec.isComment then extractRWLoop (count + 1) rest
    else
      let links := if (cssClassSel "NavContent" sec).isEmpty then cssTagA sec
                   else navContentLinks sec
      let description := if (cssClassSel "NavContent" sec).isEmpty then ""
                         else match cssClassSel "NavHead" sec with
                           | [] => ""
                           | nh :: _ => nh.text
      do
        let words ← annexeWords links
        let restEntries ← extractRWLoop (count + 1) rest
        pure ((count, ⟨description, words⟩) :: restEntries)

/-- `utils.extract_related_words` on the sibling chain starting at the
node following the matched anchor's parent. -/
def extract_related_words (chain : List Node) : Except String (List (Nat × RWEntry)) :=
  extractRWLoop 0 chain

/-- the link-chain loop of `parser.get_translations`: starting at the
first `a` child of the list item, every following sibling is inspected.
The source keeps a node when its class is not `trad-exposant` AND its
attribute dict is nonempty AND (it has no class, or its class does not
end in `-Latn`). -/
def translWalkLinks : List Node → List String
  | [] => []
  | lk :: rest =>
    if attrGet lk "class" ≠ some "trad-exposant" ∧ ¬ lk.attrs.isEmpty then
      match attrGet lk "class" with
      | none => lk.text :: translWalkLinks rest
      | some c =>
        if ¬ sEndsWith c "-Latn" then lk.text :: translWalkLinks rest
        else translWalkLinks rest
    else translWalkLinks rest

/-- the inclusion predicate of the amended C4 claim, written from the
spec side: a sibling is kept exactly when it carries at least one
attribute and its class, if any, is neither `trad-exposant` nor ends in
`-Latn`. -/
def keepTransl (n : Node) : Bool :=
  !n.attrs.isEmpty &&
    (match attrGet n "class" with
     | none => true
     | some c => c != "trad-exposant" && !(sEndsWith c "-Latn"))

/-- the per-line step of `parser.get_translations`: a line without a
`span` child is skipped; otherwise the span's text names the language
and the link chain from the first `a` child onward is collected. -/
def translLine (result : List (String × List String)) (line : Node) :
    List (String × List String) :=
  match firstChildTag "span" line with
  | none => result
  | some sp =>
    let transl := match childSuffixTag "a" line with
      | none => []
      | some suf => translWalkLinks suf
    insertAssoc sp.text transl result

/-- `parser.get_translations`: locate the anchor (a missing anchor
raises `IndexError`), take its parent, then `cssselect('li')` on the
parent's next sibling (`AttributeError` when the parent is the root or
has no next sibling) and fold the lines. -/
def get_translations (doc : Node) (translation_id : String) :
    Except String (List (String × List String)) :=
  match anchorParentSuffix (translation_id.drop 1) doc with
  | none => .error "IndexError"
  | some [] => .error "AttributeError"
  | some [_] => .error "AttributeError"
  | some (_ :: nxt :: _) =>
    .ok (((descSelf nxt).filter (fun n => n.tag = "li")).foldl translLine [])

/-- `re.fullmatch(r'#label(?:_\d+)?', value)` for a literal label: the
value is `#label` or `#label_N` for a nonempty digit string `N`. -/
def matchesRelatedId (label : String) (value : String) : Bool :=
  value == "#" ++ label ||
    (sStartsWith value ("#" ++ label ++ "_") &&
      (let rest := value.drop (("#" ++ label ++ "_").length)
       rest ≠ "" && rest.toList.all Char.isDigit))

/-- `parser._related_words_ids`: scans the section index; each
subsection identifier matching the category label is stored under the
display name of its parent section (`self._query.find(key).text()`).
The dict assignment overwrites, so two matches under parents with the
same display name collapse into one entry (last match wins). -/
def related_words_ids (doc : Node) (sections_id : List (String × List String))
    (related_word : String) : List (String × String) :=
  sections_id.foldl
    (fun ids kv =>
      kv.2.foldl
        (fun ids2 value =>
          if matchesRelatedId (pyReplace related_word " " "_") value then
            insertAssoc (queryIdText doc kv.1) value ids2
          else ids2)
        ids)
    []

/-- a Python value stored in the `parts_of_speech` result dict: either a
string (as produced for a `Notes` category) or a nested dict.  Nested
dict values are again of this shape; non-dict, non-string payloads of
the source are represented by their string rendering, which is enough
for the dict/str distinction `insert_related_words` depends on. -/
inductive PyVal : Type where
  | vstr (s : String)
  | vdict (m : List (String × PyVal))

/-- `parser.insert_related_words`: an empty `related` dict leaves the
result untouched; otherwise, for each `(key, values)` pair, the source
tries `parts_of_speech[key][part] = values` and, on the `KeyError`
raised by a missing `key`, falls back to the top-level assignment
`parts_of_speech[part] = values`.  Item assignment on a string value
raises an uncaught `TypeError`. -/
def insert_related_words (parts_of_speech : List (String × PyVal)) (part : String)
    (related : List (String × PyVal)) : Except String (List (String × PyVal)) :=
  if related.isEmpty then .ok parts_of_speech
  else
    related.foldlM
      (fun acc kv =>
        match lookupA acc kv.1 with
        | some (.vdict m) => pure (insertAssoc kv.1 (.vdict (insertAssoc part kv.2 m)) acc)
        | some (.vstr _) => .error "TypeError"
        | none => pure (insertAssoc part kv.2 acc))
      parts_of_speech

/-- `utils.get_language_name`: looks the code up in the (statically
loaded) code-to-name table; a missing code raises
`KeyError('Language code unknown : %s' % lang_code)`. -/
def get_language_name (table : List (String × String)) (lang_code : String) :
    Except String String :=
  match lookupA table lang_code with
  | some name => .ok name
  | none => .error ("Language code unknown : " ++ lang_code)

/-- the parser state touched by the language setter: `self._language`
and `self.sections_id`. -/
structure PState : Type where
  language : String
  sections_id : List (String × List String)
deriving DecidableEq

/-- pyquery `find('.toc')` truthiness: the document has a descendant
carrying the class word `toc`. -/
def hasToc (doc : Node) : Bool :=
  !((pqFindAll doc).filter (hasClassWord "toc")).isEmpty

/-- the first step of `parser._find_sections_id_without_summary`:
registers `'#Étymologie'` into the existing index (no clearing) when
such an anchor exists. -/
def sid1Of (doc : Node) (s : PState) : List (String × List String) :=
  if (idSel doc "Étymologie").isEmpty then s.sections_id
  else insertAssoc "#Étymologie" [] s.sections_id

/-- `parser._find_sections_id_without_summary`: registers
`'#Étymologie'` via `sid1Of`, then reads the `id` of the parent of the
first `.titredef` node — a missing `.titredef` raises `IndexError` on
`[0]`, a parent without `id` raises `KeyError` — and registers it when
nonempty.  Entries are inserted into the existing index without
clearing it. -/
def find_sections_id_without_summary (doc : Node) (s : PState) : Except String PState :=
  match findClassParentIn "titredef" doc doc.children with
  | none => .error "IndexError"
  | some parent =>
    match attrGet parent "id" with
    | none => .error "KeyError"
    | some sid =>
      if sid = "" then .ok ⟨s.language, sid1Of doc s⟩
      else .ok ⟨s.language, insertAssoc ("#" ++ sid) [] (sid1Of doc s)⟩

/-- One summary item of the language's table of contents:
`section.find('a').attrib['href']` (a missing `a` child raises
`AttributeError`, a missing `href` raises `KeyError`); items whose
identifier contains `*` are skipped; an item with a `ul` child yields
the `href` of the `a` child of each nested item. -/
def sectionEntry (sec : Node) : Except String (Option (String × List String)) :=
  match firstChildTag "a" sec with
  | none => .error "AttributeError"
  | some a =>
    match attrGet a "href" with
    | none => .error "KeyError"
    | some sid =>
      if sid.toList.contains '*' then .ok none
      else
        match firstChildTag "ul" sec with
        | none => .ok (some (sid, []))
        | some ul => do
          let subs ← ul.children.mapM (fun sub =>
            match firstChildTag "a" sub with
            | none => Except.error "AttributeError"
            | some sa =>
              match attrGet sa "href" with
              | none => Except.error "KeyError"
              | some h => Except.ok h)
          .ok (some (sid, subs))

/-- `parser._find_lang_sections_id`: without a `.toc` element, falls
back to `find_sections_id_without_summary`; otherwise searches, in
document order, the first link whose `href` is `'#' + language` (spaces
as underscores).  When no link matches, the method returns `None` and
leaves `self.sections_id` untouched.  When one matches, the index is
reset to `{}` and rebuilt from the children of the link's next sibling
(`AttributeError` when there is none). -/
def find_lang_sections_id (doc : Node) (s : PState) : Except String PState :=
  if ¬ hasToc doc then find_sections_id_without_summary doc s
  else
    match findLinkSearch ("#" ++ pyReplace s.language " " "_") doc.children with
    | none => .ok s
    | some [] => .error "AttributeError"
    | some (nxt :: _) => do
      let entries ← nxt.children.foldlM
        (fun acc sec => do
          match ← sectionEntry sec with
          | none => pure acc
          | some kv => pure (insertAssoc kv.1 kv.2 acc))
        ([] : List (String × List String))
      .ok ⟨s.language, entries⟩

/-- Python `str.upper` on one character, restricted to the ASCII and
Latin-1 letters occurring in language names on the French wiktionary. -/
def pyUpper (c : Char) : Char :=
  if c.isLower then c.toUpper
  else match c with
    | 'à' => 'À' | 'â' => 'Â' | 'ç' => 'Ç' | 'é' => 'É' | 'è' => 'È'
    | 'ê' => 'Ê' | 'ë' => 'Ë' | 'î' => 'Î' | 'ï' => 'Ï' | 'ô' => 'Ô'
    | 'û' => 'Û' | 'ù' => 'Ù' | 'ü' => 'Ü' | _ => c

/-- the normalization `language[0].upper() + language[1:]` of the
language setter; the empty string raises `IndexError` on
`language[0]`. -/
def pyCapFirst (language : String) : Option String :=
  match language.toList with
  | [] => none
  | c :: rest => some (String.mk (pyUpper c :: rest))

/-- the `language` property setter of `WiktionnaireParser`: uppercases
the first character, stores the language, and re-runs
`_find_lang_sections_id`. -/
def language_setter (doc : Node) (s : PState) (language : String) : Except String PState :=
  match pyCapFirst language with
  | none => .error "IndexError"
  | some l => find_lang_sections_id doc ⟨l, s.sections_id⟩

/-- the initial per-call metadata state set in `__init__`:
`self.pronunciation = []`, `self.gender = ''`. -/
def ldf0 : LDF := ⟨[], ""⟩

/-- a part-of-speech section for C2: the anchor's parent `h3`, then the
next section's `h3` heading, then an ordered list that belongs to the
next section. -/
def docC2 : Node :=
  Node.mk "body" [] "" [
    Node.mk "div" [] "" [
      Node.mk "h3" [] "Nom commun" [Node.mk "span" [("id", "Nom_commun")] "Nom commun" [] false] false,
      Node.mk "h3" [] "Verbe" [] false,
      Node.mk "ol" [] "sens premier" [Node.mk "li" [] "sens premier" [] false] false
    ] false
  ] false

/-- a document with a table of contents for C3: a summary link to
`#Français` whose next sibling lists one section. -/
def docC3 : Node :=
  Node.mk "body" [] "" [
    Node.mk "div" [("class", "toc")] "" [
      Node.mk "a" [("href", "#Français")] "Français" [] false,
      Node.mk "ul" [] "" [
        Node.mk "li" [] "Nom commun" [Node.mk "a" [("href", "#Nom")] "Nom commun" [] false] false
      ] false
    ] false
  ] false

/-- a translations block for C4: one list item with a language span and
four links — one with only an `href`, one tagged `trad-exposant`, one
tagged with a `-Latn` class, and one with no attributes at all. -/
def docC4 : Node :=
  Node.mk "body" [] "" [
    Node.mk "div" [] "" [
      Node.mk "h4" [] "Traductions" [Node.mk "span" [("id", "Traductions")] "Traductions" [] false] false,
      Node.mk "ul" [] "" [
        Node.mk "li" [] "Allemand : Hund" [
          Node.mk "span" [("class", "trad")] "Allemand" [] false,
          Node.mk "a" [("href", "/wiki/Hund")] "Hund" [] false,
          Node.mk "a" [("class", "trad-exposant"), ("href", "x")] "de" [] false,
          Node.mk "a" [("class", "text-Latn"), ("href", "y")] "hunt" [] false,
          Node.mk "a" [] "nu" [] false
        ] false
      ] false
    ] false
  ] false

/-- two part-of-speech headings for C5, with distinct ids and distinct
display texts. -/
def docC5 : Node :=
  Node.mk "body" [] "" [
    Node.mk "h3" [("id", "Nom_commun")] "Nom commun 1" [] false,
    Node.mk "h3" [("id", "Verbe")] "Verbe 1" [] false
  ] false

/-- a summary-less document for C10: no `.toc`, one section heading with
an `id` and a `.titredef` child. -/
def docC10 : Node :=
  Node.mk "body" [] "" [
    Node.mk "h3" [("id", "Nom")] "Nom" [Node.mk "span" [("class", "titredef")] "mot" [] false] false
  ] false

theorem goReplaceF_of_not_contains (p : Char) (ps : List Char) :
    ∀ (fuel : Nat) (l : List Char),
      containsPat (p :: ps) l = false → goReplaceF p ps fuel l = l := by
  intro fuel
  induction fuel with
  | zero => intro l _; cases l <;> simp [goReplaceF]
  | succ n ih =>
    intro l h
    cases l with
    | nil => simp [goReplaceF]
    | cons c rest =>
      simp only [containsPat, Bool.or_eq_false_iff] at h
      rw [goReplaceF]
      rw [if_neg]
      · rw [ih rest h.2]
      · intro hcon
        have hpre : (p :: ps).isPrefixOf (c :: rest) = true := by
          simp [List.isPrefixOf, hcon.1, hcon.2]
        rw [h.1] at hpre
        exact Bool.false_ne_true hpre

/-- a string the cleaner does not change at all is a fixed point of a
second application as well. -/
theorem etymology_cleaner_fixed (t : List Char)
    (h1 : matchesEtym1 t = false)
    (h2 : matchesEtym1 t.dropLast = false)
    (h3 : containsPat pat2 t = false) :
    etymology_cleaner t = t := by
  have hs : sub1 t = t := by
    rw [sub1, if_neg, if_neg]
    · rw [h2, Bool.and_false]; exact Bool.false_ne_true
    · rw [h1]; exact Bool.false_ne_true
  rw [etymology_cleaner, hs]
  have hp : pat2 = '(' :: "Siècle à préciser) ".toList := by decide
  rw [hp] at h3 ⊢
  exact goReplaceF_of_not_contains _ _ t.length t h3

/-- C6 counterexample: `etymology_cleaner` is not idempotent.  On
`"(Siècle à(Siècle à préciser)  préciser) "` the first pass removes the
inner occurrence of `(Siècle à préciser) `, and the surviving fragments
concatenate into a new occurrence that only a second pass removes, so
applying the cleaner twice differs from applying it once. -/
theorem C6_counterexample :
    etymology_cleaner (etymology_cleaner etymBad) ≠ etymology_cleaner etymBad := by
  decide

/-- C6 amended: applying the cleanup rules twice yields the same result
as once for every input whose once-cleaned form matches neither ignore
pattern (no residual anchored placeholder match, also not before a
trailing newline, and no residual occurrence of the literal
`(Siècle à préciser) `); in general a second application can remove a
spliced occurrence the first pass created. -/
theorem C6_amended (l : List Char)
    (h1 : matchesEtym1 (etymology_cleaner l) = false)
    (h2 : matchesEtym1 (etymology_cleaner l).dropLast = false)
    (h3 : containsPat pat2 (etymology_cleaner l) = false) :
    etymology_cleaner (etymology_cleaner l) = etymology_cleaner l :=
  etymology_cleaner_fixed (etymology_cleaner l) h1 h2 h3

/-- C6 witness: the hypotheses of `C6_amended` hold at the concrete
etymology `"Du latin lupus."`, and the amended idempotence follows
there. -/
theorem C6_witness :
    matchesEtym1 (etymology_cleaner "Du latin lupus.".toList) = false ∧
    matchesEtym1 (etymology_cleaner "Du latin lupus.".toList).dropLast = false ∧
    containsPat pat2 (etymology_cleaner "Du latin lupus.".toList) = false ∧
    etymology_cleaner (etymology_cleaner "Du latin lupus.".toList) =
      etymology_cleaner "Du latin lupus.".toList :=
  ⟨by decide, by decide, by decide,
    C6_amended "Du latin lupus.".toList (by decide) (by decide) (by decide)⟩

/-- C1: the boundary walk of `get_notes` stops at the first `h3`/`h4`
heading, but at the end of the sibling chain the source dereferences
`None.tag` and raises `AttributeError` instead of returning the
concatenated text: on a one-node chain followed by a heading the walk
returns the text, while the same chain without the heading fails. -/
theorem C1_theorem :
    get_notes [Node.mk "p" [] "note 1" [] false, Node.mk "h3" [] "" [] false] =
      .ok "note 1" ∧
    get_notes [Node.mk "p" [] "note 1" [] false] = .error "AttributeError" :=
  ⟨rfl, rfl⟩

/-- helper for C2: a chain without an `ol` node makes the definition
walk return no list node. -/
theorem defsWalk_fst_none (chain : List Node) :
    ∀ st : LDF, chain.all (fun n => !(n.tag == "ol")) = true →
      (defsWalk st chain).1 = none := by
  induction chain with
  | nil => intro st _; rfl
  | cons n rest ih =>
    intro st h
    rw [List.all_cons, Bool.and_eq_true] at h
    rw [defsWalk, if_neg]
    · exact ih _ h.2
    · have := h.1
      simp only [Bool.not_eq_true', beq_eq_false_iff_ne, ne_eq] at this
      exact this

/-- C2 counterexample: `get_definitions` does collect an ordered list
lying beyond the first heading that follows the anchor.  In `docC2` the
anchor's parent heading is followed by the next section's `h3` and only
then by an `ol`; the source walk stops only at `ol` nodes or at the end
of the chain, so the foreign list is collected and the result is not
empty. -/
theorem C2_counterexample :
    get_definitions docC2 ldf0 "#Nom_commun" =
      .ok ([(0, ⟨"sens premier", [], none⟩)], ldf0) := rfl

/-- C2 amended: the walk of `get_definitions` from the anchor's parent
stops only at an ordered-list node or at the end of the sibling chain —
never at headings — so a chain without any `ol` node yields the empty
mapping, and in general the result is empty exactly when the walk
reaches no ordered list or the ordered list it reaches has no child
items; an `ol` beyond an intervening heading is still collected. -/
theorem C2_amended (st : LDF) (chain : List Node) :
    (chain.all (fun n => !(n.tag == "ol")) = true →
      (getDefinitionsFrom st chain).1 = []) ∧
    ((getDefinitionsFrom st chain).1 = [] ↔
      ∀ ol, (defsWalk st chain).1 = some ol → ol.children = []) := by
  constructor
  · intro h
    have hw := defsWalk_fst_none chain st h
    rw [getDefinitionsFrom]
    rcases hd : defsWalk st chain with ⟨o, st2⟩
    rw [hd] at hw
    simp only at hw
    subst hw
    rfl
  · rw [getDefinitionsFrom]
    rcases hd : defsWalk st chain with ⟨o, st2⟩
    cases o with
    | none => simp
    | some ol =>
      dsimp only
      simp only [List.map_eq_nil_iff, List.enum_eq_nil, Option.some.injEq]
      constructor
      · rintro he ol2 rfl
        exact he
      · intro hr
        exact hr ol rfl

/-- C2 witness: a chain consisting of one heading and one paragraph has
no ordered list, so the amended theorem applies to it; a chain whose
only node is a childless ordered list also yields the empty mapping. -/
theorem C2_witness :
    (getDefinitionsFrom ldf0
      [Node.mk "h3" [] "" [] false, Node.mk "p" [] "x" [] false]).1 = [] ∧
    (getDefinitionsFrom ldf0 [Node.mk "ol" [] "" [] false]).1 = [] :=
  ⟨(C2_amended ldf0 [Node.mk "h3" [] "" [] false, Node.mk "p" [] "x" [] false]).1
    (by decide), rfl⟩

/-- C8: `get_language_name` maps a known code to its display name and
raises the `Language code unknown` condition, with the offending code in
the message, for a code absent from the table. -/
theorem C8_theorem (table : List (String × String)) (lang_code : String) :
    (lookupA table lang_code = none →
      get_language_name table lang_code =
        .error ("Language code unknown : " ++ lang_code)) ∧
    (∀ name, lookupA table lang_code = some name →
      get_language_name table lang_code = .ok name) := by
  constructor
  · intro h; rw [get_language_name, h]
  · intro name h; rw [get_language_name, h]

/-- C8 witness: on the one-entry table `fr → Français`, the unknown code
`xx` raises the condition with `xx` in the message and the known code
`fr` returns its name. -/
theorem C8_witness :
    get_language_name [("fr", "Français")] "xx" =
      .error ("Language code unknown : " ++ "xx") ∧
    get_language_name [("fr", "Français")] "fr" = .ok "Français" :=
  ⟨(C8_theorem [("fr", "Français")] "xx").1 rfl,
   (C8_theorem [("fr", "Français")] "fr").2 "Français" rfl⟩

/-- C9 counterexample: when the group's key is not an existing
part-of-speech key, `insert_related_words` stores the value under the
CATEGORY label (`part`), not under the group's key: inserting the group
`('Nom commun 1', value)` for category `Synonymes` into an empty result
leaves nothing under `Nom commun 1`. -/
theorem C9_counterexample :
    insert_related_words [] "Synonymes" [("Nom commun 1", PyVal.vstr "note")] =
      .ok [("Synonymes", PyVal.vstr "note")] ∧
    lookupA [("Synonymes", PyVal.vstr "note")] "Nom commun 1" = none :=
  ⟨rfl, rfl⟩

/-- C9 amended: for a group whose key is not an existing key of the
result mapping, the `KeyError` fallback of `insert_related_words` stores
the group's value at the top level under the category label (the `part`
argument), overwriting any earlier top-level value for that label,
instead of nesting it under a part of speech or using the group's
key. -/
theorem C9_amended (parts_of_speech : List (String × PyVal)) (part key : String)
    (v : PyVal) (h : lookupA parts_of_speech key = none) :
    insert_related_words parts_of_speech part [(key, v)] =
      .ok (insertAssoc part v parts_of_speech) := by
  rw [insert_related_words, if_neg (by simp)]
  simp only [List.foldlM_cons, List.foldlM_nil]
  simp [h]
  rfl

/-- C9 witness: the amended theorem applied to a result holding one
part-of-speech entry and a group keyed by a section name that is not
such an entry. -/
theorem C9_witness :
    insert_related_words [("Nom", PyVal.vdict [])] "Synonymes"
      [("Voir aussi", PyVal.vstr "x")] =
      .ok (insertAssoc "Synonymes" (PyVal.vstr "x") [("Nom", PyVal.vdict [])]) :=
  C9_amended [("Nom", PyVal.vdict [])] "Synonymes" "Voir aussi" (PyVal.vstr "x") rfl

/-- C10: the language setter stores the input with its first character
uppercased and the rest unchanged; the empty string raises `IndexError`
(outside the setter's domain); and setting `français` or `Français`
produces the same state, section index included. -/
theorem C10_theorem :
    (∀ (c : Char) (l : List Char),
      pyCapFirst (String.mk (c :: l)) = some (String.mk (pyUpper c :: l))) ∧
    pyCapFirst "" = none ∧
    language_setter docC10 ⟨"x", []⟩ "français" =
      language_setter docC10 ⟨"x", []⟩ "Français" :=
  ⟨fun _ _ => rfl, rfl, rfl⟩

/-- C3 counterexample: after building the index for `Français` on a
document with a table of contents, setting the language to `anglais`
(absent from the document) leaves the previous language's entries in
the section index — the new scan derives no entries, yet the index is
not empty. -/
theorem C3_counterexample :
    language_setter docC3 ⟨"x", []⟩ "Français" = .ok ⟨"Français", [("#Nom", [])]⟩ ∧
    language_setter docC3 ⟨"Français", [("#Nom", [])]⟩ "anglais" =
      .ok ⟨"Anglais", [("#Nom", [])]⟩ ∧
    ([("#Nom", ([] : List String))] : List (String × List String)) ≠ [] :=
  ⟨rfl, rfl, by decide⟩

/-- helper for C3: overwriting one key of a dict keeps every already
present key present. -/
theorem lookupA_insertAssoc_isSome {α β : Type} [DecidableEq α] (k q : α) (v : β) :
    ∀ m : List (α × β), (lookupA m q).isSome → (lookupA (insertAssoc k v m) q).isSome := by
  intro m
  induction m with
  | nil => intro h; simp [lookupA] at h
  | cons kv rest ih =>
    obtain ⟨k1, v1⟩ := kv
    intro h
    rw [insertAssoc]
    by_cases hk : k1 = k
    · rw [if_pos hk]
      rw [lookupA] at h ⊢
      by_cases hq : k = q
      · rw [if_pos hq]; simp
      · rw [if_neg hq]
        rw [if_neg (hk ▸ hq)] at h
        exact h
    · rw [if_neg hk]
      rw [lookupA] at h ⊢
      by_cases hq : k1 = q
      · rw [if_pos hq]; simp
      · rw [if_neg hq] at h ⊢
        exact ih h

/-- helper for C3: the `'#Étymologie'` step of the summary-less index
builder inserts into the existing index, so every key present before
stays present. -/
theorem sid1Of_preserves (doc : Node) (s : PState) (k : String)
    (h : (lookupA s.sections_id k).isSome) : (lookupA (sid1Of doc s) k).isSome := by
  rw [sid1Of]
  split_ifs
  · exact h
  · exact lookupA_insertAssoc_isSome _ _ _ _ h

/-- C3 amended: on a document with a table of contents, setting a
language fully replaces the section index only when the language's link
is found (the rebuilt index is then independent of the previous one);
when the language is absent, `_find_lang_sections_id` returns `None`
and the previous index is left unchanged; on a document without a table
of contents the method delegates to the summary-less builder, which
inserts its entries into the existing index without clearing it, so
every previously present key remains present. -/
theorem C3_amended (doc : Node) (L : String) (prior prior2 : List (String × List String)) :
    (hasToc doc = true →
      findLinkSearch ("#" ++ pyReplace L " " "_") doc.children = none →
      find_lang_sections_id doc ⟨L, prior⟩ = .ok ⟨L, prior⟩) ∧
    (hasToc doc = true →
      ∀ suffix, findLinkSearch ("#" ++ pyReplace L " " "_") doc.children = some suffix →
        find_lang_sections_id doc ⟨L, prior⟩ = find_lang_sections_id doc ⟨L, prior2⟩) ∧
    (hasToc doc = false →
      find_lang_sections_id doc ⟨L, prior⟩ =
        find_sections_id_without_summary doc ⟨L, prior⟩ ∧
      ∀ st, find_sections_id_without_summary doc ⟨L, prior⟩ = .ok st →
        ∀ k, (lookupA prior k).isSome → (lookupA st.sections_id k).isSome) := by
  refine ⟨fun htoc h => ?_, fun htoc suffix h => ?_, fun hn => ⟨?_, ?_⟩⟩
  · rw [find_lang_sections_id, if_neg (by simp [htoc])]
    dsimp only
    rw [h]
  · rw [find_lang_sections_id, find_lang_sections_id,
      if_neg (by simp [htoc]), if_neg (by simp [htoc])]
    dsimp only
    rw [h]
    cases suffix with
    | nil => rfl
    | cons nxt rest => rfl
  · rw [find_lang_sections_id, if_pos (by simp [hn])]
  · intro st hok k hk
    unfold find_sections_id_without_summary at hok
    split at hok
    · exact absurd hok (by simp)
    · split at hok
      · exact absurd hok (by simp)
      · split at hok
        · injection hok with h1
          subst h1
          exact sid1Of_preserves doc ⟨L, prior⟩ k hk
        · injection hok with h1
          subst h1
          exact lookupA_insertAssoc_isSome _ _ _ _ (sid1Of_preserves doc ⟨L, prior⟩ k hk)

/-- C3 witness: on `docC3` (with a table of contents) the link for
`Français` is found, so the rebuilt index does not depend on the
previously stored entries; on `docC10` (without a table of contents)
the setter takes the summary-less path. -/
theorem C3_witness :
    find_lang_sections_id docC3 ⟨"Français", [("#Old", [])]⟩ =
      find_lang_sections_id docC3 ⟨"Français", []⟩ ∧
    find_lang_sections_id docC10 ⟨"Français", [("#Old", [])]⟩ =
      find_sections_id_without_summary docC10 ⟨"Français", [("#Old", [])]⟩ :=
  ⟨(C3_amended docC3 "Français" [("#Old", [])] []).2.1 rfl
    [Node.mk "ul" [] ""
      [Node.mk "li" [] "Nom commun"
        [Node.mk "a" [("href", "#Nom")] "Nom commun" [] false] false] false]
    rfl,
   ((C3_amended docC10 "Français" [("#Old", [])] []).2.2 rfl).1⟩

/-- C4 counterexample: on a translation line with a language span, a
link carrying only an `href` is included, the `trad-exposant` and
`-Latn` links are excluded — but the link with NO attributes at all
(hence no class attribute) is also excluded, because the source
additionally requires a nonempty attribute dict (`and links.attrib`),
refuting the claim that every link with no class attribute is
included. -/
theorem C4_counterexample :
    get_translations docC4 "#Traductions" = .ok [("Allemand", ["Hund"])] := rfl

/-- C4 amended: the link chain of `get_translations` keeps exactly the
siblings that carry at least one attribute and whose class, if any, is
neither `trad-exposant` nor ends in `-Latn`; in particular a link with
no attributes at all is excluded even though it has no class
attribute. -/
theorem C4_amended : ∀ chain : List Node,
    translWalkLinks chain = (chain.filter keepTransl).map Node.text := by
  intro chain
  induction chain with
  | nil => rfl
  | cons lk rest ih =>
    rcases hc : attrGet lk "class" with _ | cl
    · rcases he : lk.attrs.isEmpty <;>
        simp [translWalkLinks, keepTransl, List.filter_cons, hc, he, ih]
    · by_cases hteq : cl = "trad-exposant"
      · subst hteq
        rcases he : lk.attrs.isEmpty <;>
          simp [translWalkLinks, keepTransl, List.filter_cons, hc, he, ih]
      · rcases he : lk.attrs.isEmpty <;> rcases hl : sEndsWith cl "-Latn" <;>
          simp [translWalkLinks, keepTransl, List.filter_cons, hc, he, hl, hteq, ih]

/-- C5 counterexample: two matched subsections (`#Synonymes` and
`#Synonymes_2`) under the SAME parent section collapse into a single
group: the dict assignment keyed by the parent's display name
overwrites, so only the last match survives instead of two distinct
groups. -/
theorem C5_counterexample :
    related_words_ids docC5 [("#Nom_commun", ["#Synonymes", "#Synonymes_2"])] "Synonymes" =
      [("Nom commun 1", "#Synonymes_2")] := rfl

/-- C5 amended: `_related_words_ids` groups matched subsections by the
display name of their parent section; two matches produce two distinct
unmerged groups exactly when the parent display names differ, and
collapse to the last match (same key overwritten) when the names
coincide. -/
theorem C5_amended (doc : Node) (k1 k2 v1 v2 cat : String)
    (hm1 : matchesRelatedId (pyReplace cat " " "_") v1 = true)
    (hm2 : matchesRelatedId (pyReplace cat " " "_") v2 = true) :
    (queryIdText doc k1 ≠ queryIdText doc k2 →
      related_words_ids doc [(k1, [v1]), (k2, [v2])] cat =
        [(queryIdText doc k1, v1), (queryIdText doc k2, v2)]) ∧
    (queryIdText doc k1 = queryIdText doc k2 →
      related_words_ids doc [(k1, [v1]), (k2, [v2])] cat = [(queryIdText doc k1, v2)]) := by
  have hexp : related_words_ids doc [(k1, [v1]), (k2, [v2])] cat =
      insertAssoc (queryIdText doc k2) v2 (insertAssoc (queryIdText doc k1) v1 []) := by
    rw [related_words_ids]
    dsimp only [List.foldl]
    rw [if_pos hm1, if_pos hm2]
  constructor
  · intro hne
    rw [hexp]
    simp only [insertAssoc]
    rw [if_neg hne]
  · intro heq
    rw [hexp]
    simp only [insertAssoc]
    rw [if_pos heq, heq]

/-- C5 witness: the two matched subsections of `docC5` sit under parent
sections with distinct display names, and the amended theorem yields
two distinct groups there. -/
theorem C5_witness :
    related_words_ids docC5 [("#Nom_commun", ["#Synonymes"]), ("#Verbe", ["#Synonymes_2"])]
        "Synonymes" =
      [(queryIdText docC5 "#Nom_commun", "#Synonymes"),
       (queryIdText docC5 "#Verbe", "#Synonymes_2")] :=
  (C5_amended docC5 "#Nom_commun" "#Verbe" "#Synonymes" "#Synonymes_2" "Synonymes"
    rfl rfl).1 (by decide)

/-- C7 counterexample: a related-words section containing a link with
no `href` attribute makes `extract_related_words` raise an uncaught
`TypeError` (`'Annexe:' in None`), so a missing expected attribute does
propagate as an exception, refuting the claim that every such absence
is caught and treated as an absent value. -/
theorem C7_counterexample :
    extract_related_words [Node.mk "p" [] "mot" [Node.mk "a" [] "mot" [] false] false] =
      .error "TypeError" := rfl

/-- C7 amended: a missing `.NavHead` inside a collapsible block is
caught and yields an empty description, but a link without `href` in
`extract_related_words` raises an uncaught `TypeError`, and a document
without a `.titredef` node makes `_find_sections_id_without_summary`
raise an uncaught `IndexError`. -/
theorem C7_amended :
    (∀ (w h : String), containsPat "Annexe:".toList h.toList = false →
      extract_related_words
        [Node.mk "p" [] w
          [Node.mk "div" [("class", "NavContent")] w
            [Node.mk "a" [("href", h)] w [] false] false] false] =
        .ok [(0, ⟨"", [w]⟩)]) ∧
    (∀ (w x : String),
      extract_related_words [Node.mk "p" [] x [Node.mk "a" [] w [] false] false] =
        .error "TypeError") ∧
    (∀ (prior : List (String × List String)) (L : String),
      find_sections_id_without_summary (Node.mk "body" [] "" [] false) ⟨L, prior⟩ =
        .error "IndexError") := by
  refine ⟨fun w h hA => ?_, fun w x => rfl, fun prior L => rfl⟩
  have step : extract_related_words
      [Node.mk "p" [] w
        [Node.mk "div" [("class", "NavContent")] w
          [Node.mk "a" [("href", h)] w [] false] false] false] =
      (annexeWords [Node.mk "a" [("href", h)] w [] false]).bind
        (fun words => Except.ok [(0, ⟨"", words⟩)]) := rfl
  have step2 : annexeWords [Node.mk "a" [("href", h)] w [] false] =
      if containsPat "Annexe:".toList h.toList then Except.ok [] else Except.ok [w] := rfl
  rw [step, step2, hA]
  rfl

/-- C7 witness: the tolerated-absence branch of the amended theorem at
a concrete collapsible block whose link points outside the appendix
namespace. -/
theorem C7_witness :
    extract_related_words
      [Node.mk "p" [] "chat"
        [Node.mk "div" [("class", "NavContent")] "chat"
          [Node.mk "a" [("href", "/wiki/chat")] "chat" [] false] false] false] =
      .ok [(0, ⟨"", ["chat"]⟩)] :=
  C7_amended.1 "chat" "/wiki/chat" (by decide)
